import Mathlib

/-!
Shallow embedding of the availability-and-placement scheduling engine of
`app/agents/scheduler_brain.py` and the bounded-retry orchestration loop of
`app/orchestration/scheduler_graph.py`.

Modelling conventions:
* `datetime` values are integer minutes since an arbitrary day-0 midnight
  (`Int`); a `date` is the day number `t.ediv 1440`; a `time`-of-day is
  `t.emod 1440` (all datetimes in the source are naive and the source only
  ever does minute-granularity arithmetic on them).
* Python `str` values that the code inspects character by character (the
  advisory strategy's `best_slot_id`) are `List Char`; strings that are only
  stored or compared whole are `String`.
* Python dicts with known keys become structures with `Option` fields;
  `d.get(k, default)` becomes `field.getD default`.
* In-place mutation of `TimeSlot.available` becomes functions returning an
  updated list; the engine additionally returns its final availability list
  so that the effect of the source's in-place mutation is observable.
* The external LLM call (`call_llm`) is an oracle parameter: one
  `LLMResponse` per position in the sorted task list.  `LLMResponse` models
  the outcome of `json.loads` on the returned text: `invalid` is the case in
  which an exception of the caught classes is raised while parsing
  (malformed JSON, or a JSON value that is not a dict so that `.get` raises
  `AttributeError`); `valid bestId` is a parsed dict whose `best_slot_id`
  entry is the given optional string.
-/

namespace Scheduler

/-- `TimeSlot` of `scheduler_brain.py`: `start`, `end`, `available`.
`end` is a Lean keyword, so the field is called `endT`. -/
structure TimeSlot where
  start : Int
  endT : Int
  available : Bool := true
  deriving Repr, DecidableEq

instance : Inhabited TimeSlot := ⟨{ start := 0, endT := 0, available := false }⟩

/-- `CalendarEvent` of `scheduler_brain.py`. -/
structure CalendarEvent where
  summary : String
  start : Int
  endT : Int
  is_movable : Bool := false
  is_external : Bool := true
  deriving Repr, DecidableEq

/-- The scheduling-relevant fields of the `Task` dataclass of
`scheduler_brain.py` (fields never read by the scheduling logic -
`kind`, `contacts`, `notes`, `confidence`, `metadata`, `start` - are
omitted; they are stored and echoed nowhere in the embedded code paths). -/
structure Task where
  id : String
  title : Option String := none
  description : Option String := none
  duration_minutes : Int
  deadline : Option Int := none
  priority : Option String := none
  priority_num : Int := 3
  location : Option String := none
  category : Option String := none
  constraints : List String := []
  deriving Repr, DecidableEq

/-- The fields of a decomposed-task JSON object read by `Task.from_json`.
`start`/`end` are already-parsed datetimes (`_parse_dt` plus the
normalise-to-naive-UTC step is the out-of-scope ISO-8601 parsing layer;
a string that fails to parse is `none` here as in the source). -/
structure TaskJson where
  title : Option String := none
  description : Option String := none
  duration_minutes : Option Int := none
  start : Option Int := none
  endT : Option Int := none
  priority : Option String := none
  priority_num : Option Int := none
  location : Option String := none
  category : Option String := none
  constraints : Option (List String) := none
  deriving Repr, DecidableEq

/-- The preference fields read by `apply_preferences`.  Work-hour and
lunch-start values are minutes-of-day (the result of
`time.fromisoformat` on the stored `"HH:MM"` strings). -/
structure Preferences where
  work_hours_start : Option Int := none
  work_hours_end : Option Int := none
  lunch_time_start : Option Int := none
  lunch_duration_minutes : Option Int := none
  deriving Repr, DecidableEq

/-- An entry of the `scheduled_tasks` list built by
`schedule_tasks_intelligently` (the `date` field is
`start_time.date()`, i.e. the day number). -/
structure ScheduledEntry where
  task_id : String
  description : Option String
  category : Option String
  date : Int
  start_time : Int
  end_time : Int
  duration_minutes : Int
  location : Option String
  deriving Repr, DecidableEq

/-- The reason strings of the two conflict dicts appended by
`schedule_tasks_intelligently`, as a tagged type.  `noSlot d` stands for
`f"No available time slots found for the required duration of {d} minutes."`
and `llmNoFeasible` for
`"LLM could not identify a feasible slot that satisfies constraints and availability."`. -/
inductive ConflictReason where
  | noSlot (duration_minutes : Int)
  | llmNoFeasible
  deriving Repr, DecidableEq

/-- A conflict dict `{"task": task.description, "reason": ..., "suggestion": ...}`
(the suggestion string is determined by the reason and is not repeated). -/
structure Conflict where
  task : Option String
  reason : ConflictReason
  deriving Repr, DecidableEq

/-- The dict returned by `schedule_tasks_intelligently`, plus the final
state of the (mutated in place in the source) availability list. -/
structure SchedulingOutput where
  scheduled_plan : List ScheduledEntry
  conflicts : List Conflict
  needs_user_input : Bool
  final_availability : List TimeSlot
  deriving Repr, DecidableEq

/-- Outcome of `json.loads` on the advisory response inside
`llm_choose_best_slot` (see the module docstring). -/
inductive LLMResponse where
  | invalid
  | valid (bestId : Option (List Char))
  deriving Repr, DecidableEq

/-- Half-open interval overlap, the test used throughout the source:
`a_start < b_end and b_start < a_end`. -/
def overlaps (aStart aEnd bStart bEnd : Int) : Prop :=
  aStart < bEnd ∧ bStart < aEnd

instance (aStart aEnd bStart bEnd : Int) :
    Decidable (overlaps aStart aEnd bStart bEnd) := by
  unfold overlaps; infer_instance

/-! ### Character/string helpers (embedding the Python `str` operations) -/

/-- Python's `str.lower` restricted to ASCII (every string the code lowers
is an ASCII slot id or priority label). -/
def charLower (c : Char) : Char :=
  if 'A' ≤ c ∧ c ≤ 'Z' then Char.ofNat (c.toNat + 32) else c

/-- Python's `s.split(sep)` for a one-character separator: all fields are
kept, including empty ones (`"slot_".split("_") == ["slot", ""]`). -/
def splitChar (sep : Char) : List Char → List (List Char)
  | [] => [[]]
  | c :: rest =>
    if c = sep then [] :: splitChar sep rest
    else
      match splitChar sep rest with
      | [] => [[c]]
      | p :: ps => (c :: p) :: ps

/-- Python's `s.startswith(t)` on character lists. -/
def strBegins : List Char → List Char → Bool
  | _, [] => true
  | [], _ :: _ => false
  | c :: cs, d :: ds => c = d && strBegins cs ds

/-- Python's `str.strip()` (whitespace on both ends; ASCII whitespace). -/
def pyStrip (s : List Char) : List Char :=
  ((s.dropWhile (·.isWhitespace)).reverse.dropWhile (·.isWhitespace)).reverse

/-! ### `Task.from_json` -/

/-- `_infer_priority_num` of `Task.from_json`: normalise the label
(`str(label).strip().lower()`) and look it up in the fixed mapping. -/
def infer_priority_num (priority_label : Option String) (fallback : Int) : Int :=
  match priority_label with
  | none => fallback
  | some lbl =>
    let label : List Char := (pyStrip lbl.data).map charLower
    if label = "highest".data then 1
    else if label = "very high".data then 1
    else if label = "high".data then 1
    else if label = "medium".data then 3
    else if label = "normal".data then 3
    else if label = "low".data then 5
    else if label = "very low".data then 5
    else if label = "lowest".data then 5
    else fallback

/-- `Task.from_json`.  The fresh `uuid4` id is passed in as `newId` (the
source draws it from the field default factory).  Note the source line
`inferred_duration = data.get("duration_minutes") if data.get("duration_minutes") is not None else 60`:
a missing duration is replaced by 60, not rejected.  `description or title`
is Python truthiness: an absent or empty description falls back to the
title. -/
def Task.from_json (newId : String) (data : TaskJson) : Task :=
  let description :=
    match data.description with
    | some s => if s = "" then data.title else some s
    | none => data.title
  let inferred_duration := data.duration_minutes.getD 60
  let inferred_priority_num :=
    match data.priority_num with
    | none => infer_priority_num data.priority 3
    | some n => n
  { id := newId
    title := data.title
    description := description
    duration_minutes := inferred_duration
    deadline := data.endT
    priority := data.priority
    priority_num := inferred_priority_num
    location := data.location
    category := data.category
    constraints := data.constraints.getD [] }

/-! ### Availability grid builder -/

/-- The `while current_time < end_of_day` loop of `initialize_day_slots`,
with an explicit fuel argument (the source loop terminates for every
positive `slotDur`; for `slotDur ≤ 0` the source diverges and this model
returns the slots produced before the fuel runs out — no embedded call
uses a non-positive duration). -/
def daySlotLoop (slotDur : Int) (dayEnd : Int) : Nat → Int → List TimeSlot
  | 0, _ => []
  | fuel + 1, current =>
    if current < dayEnd then
      { start := current, endT := current + slotDur, available := true } ::
        daySlotLoop slotDur dayEnd fuel (current + slotDur)
    else []

/-- `initialize_day_slots(day, slot_duration_minutes)`.  `day` is a day
number; `datetime.combine(day, time.min)` is `day * 1440`, and the loop
guard `current_time < end_of_day` (with `end_of_day` one microsecond
before next midnight) is equivalent to `current < day * 1440 + 1440` for
the integer-minute `current` values the loop produces.  1441 units of fuel
suffice for every positive `slotDur`. -/
def initialize_day_slots (day : Int) (slotDur : Int := 15) : List TimeSlot :=
  daySlotLoop slotDur (day * 1440 + 1440) 1441 (day * 1440)

/-- `mark_slots_unavailable(slots, start_block, end_block)`: flip every
slot overlapping the block to unavailable. -/
def mark_slots_unavailable (slots : List TimeSlot) (startBlock endBlock : Int) :
    List TimeSlot :=
  slots.map fun slot =>
    if slot.start < endBlock ∧ slot.endT > startBlock then
      { slot with available := false }
    else slot

/-- `apply_preferences(slots, preferences)`.  The work-hours pass marks a
slot by its *start* time-of-day (`slot.start.time()`): a slot stays as is
iff `work_start <= slot_time < work_end`.  The lunch block is
`[lunch_start, lunch_start + lunch_duration)` anchored on
`slots[0].start.date()` and is applied by interval overlap.  On an empty
slot list the source raises `IndexError` at `slots[0]`; that path is never
reached (every built grid has 96 slots per day) and is modelled as
returning the empty list. -/
def apply_preferences (slots : List TimeSlot) (preferences : Preferences) :
    List TimeSlot :=
  let work_start := preferences.work_hours_start.getD 540
  let work_end := preferences.work_hours_end.getD 1020
  let slots1 := slots.map fun slot =>
    if work_start ≤ slot.start.emod 1440 ∧ slot.start.emod 1440 < work_end then
      slot
    else { slot with available := false }
  match slots1 with
  | [] => []
  | s0 :: _ =>
    let lunch_start := (s0.start.ediv 1440) * 1440 + preferences.lunch_time_start.getD 780
    let lunch_end := lunch_start + preferences.lunch_duration_minutes.getD 60
    mark_slots_unavailable slots1 lunch_start lunch_end

/-- `build_availability_matrix(target_date, existing_events, preferences)`:
initialise, apply preferences, then mark every event whose start date is
the target date. -/
def build_availability_matrix (target_date : Int)
    (existing_events : List CalendarEvent) (preferences : Preferences) :
    List TimeSlot :=
  let slots := initialize_day_slots target_date 15
  let slots := apply_preferences slots preferences
  existing_events.foldl
    (fun acc event =>
      if event.start.ediv 1440 = target_date then
        mark_slots_unavailable acc event.start event.endT
      else acc)
    slots

/-- The grid-construction part of `schedule_tasks_for_next_seven_days`:
the concatenation of the seven single-day grids starting at `today`
(the DB fetch of `events` is external I/O; the event list is a
parameter). -/
def seven_day_availability (today : Int) (events : List CalendarEvent)
    (preferences : Preferences) : List TimeSlot :=
  (List.range 7).flatMap fun day_offset =>
    build_availability_matrix (today + day_offset) events preferences

/-! ### Candidate window finder -/

/-- `required_slots_count = -(-task.duration_minutes // slot_duration_minutes)`
(Python `//` is floor division). -/
def required_slots_count (task : Task) (slotDur : Int) : Int :=
  -(Int.fdiv (-task.duration_minutes) slotDur)

/-- `find_candidate_slots(task, availability, slot_duration_minutes)`:
slide a window of `required_slots_count` slots over the list
(`for i in range(len(availability) - required_slots_count + 1)`, window
`availability[i : i + required_slots_count]`) and keep the windows whose
slots are all available, in order of `i`.  A non-positive required count
yields empty windows, which all qualify, exactly as the Python slices
do. -/
def find_candidate_slots (task : Task) (availability : List TimeSlot)
    (slotDur : Int := 15) : List (List TimeSlot) :=
  let required := required_slots_count task slotDur
  let positions := ((availability.length : Int) - required + 1).toNat
  (List.range positions).filterMap fun i =>
    let window := (availability.drop i).take required.toNat
    if window.all (·.available) then some window else none

/-! ### Slot selection (`llm_choose_best_slot`) -/

/-- The `"slot_"` tag prepended to candidate ids. -/
def slotTag : List Char := ['s', 'l', 'o', 't', '_']

/-- The response-interpretation logic of `llm_choose_best_slot`, as a
function of the parse outcome of the advisory response:

* `invalid` (an exception of the caught classes while parsing) lands in the
  `except` branch, which returns `candidates[0]` (`head?`; the engine only
  calls with a non-empty candidate list, so the `IndexError` of
  `candidates[0]` on an empty list is unreachable);
* a parsed dict whose `best_slot_id` is missing, empty, not a string, or
  not of the form `slot_<letter>` returns `None`;
* `slot_<letter>` is decoded as index `ord(letter.lower()) - 97`; an
  out-of-range index returns `None`, otherwise `candidates[index]`. -/
def llm_choose_best_slot (candidates : List (List TimeSlot))
    (response : LLMResponse) : Option (List TimeSlot) :=
  match response with
  | .invalid => candidates.head?
  | .valid none => none
  | .valid (some best_id) =>
    if best_id = [] then none
    else if ¬ strBegins best_id slotTag then none
    else
      let parts := splitChar '_' best_id
      if parts.length ≠ 2 then none
      else
        let p1 := parts.getD 1 []
        if p1 = [] then none
        else
          let letter := charLower (p1.headD 'a')
          if letter < 'a' ∨ 'z' < letter then none
          else candidates[(letter.toNat - 97)]?

/-! ### Task ordering -/

/-- `datetime.max` (the sentinel used for absent deadlines), in minutes:
every representable Python datetime is strictly below year 10000. -/
def dtMax : Int := 9999 * 525960

/-- The second component of the sort key:
`_to_naive_utc(t.deadline) or datetime.max` (deadlines in the model are
already naive; a `datetime` is always truthy, so only `None` falls back). -/
def deadlineKey (t : Task) : Int := t.deadline.getD dtMax

/-- Strict lexicographic comparison of the sort keys
`(t.priority_num, deadline or datetime.max)`. -/
def taskKeyLT (a b : Task) : Bool :=
  a.priority_num < b.priority_num ∨
    (a.priority_num = b.priority_num ∧ deadlineKey a < deadlineKey b)

/-- Non-strict comparison of the sort keys. -/
def taskKeyLE (a b : Task) : Bool :=
  a.priority_num < b.priority_num ∨
    (a.priority_num = b.priority_num ∧ deadlineKey a ≤ deadlineKey b)

/-- Stable insertion of `a` in front of the first element not strictly
below it. -/
def stableInsert (a : Task) : List Task → List Task
  | [] => [a]
  | b :: bs => if taskKeyLT b a then b :: stableInsert a bs else a :: b :: bs

/-- `sorted(tasks, key=lambda t: (t.priority_num, deadline or datetime.max))`.
Python's `sorted` is *the* stable sort by this key; the output of any
stable sorting algorithm by a fixed total preorder is unique, so stable
insertion sort is extensionally the source's Timsort (the theorems below
establish sortedness, permutation and stability). -/
def sortedTasks : List Task → List Task
  | [] => []
  | t :: ts => stableInsert t (sortedTasks ts)

/-! ### Scheduling engine -/

/-- The per-task body of the `for task in sorted_tasks` loop of
`schedule_tasks_intelligently`, recursing over the sorted tasks and
threading the (in the source: in-place mutated) availability list.
`k` is the position of the task in the sorted list; `oracle k` is the
parse outcome of the advisory call made for that task (positions at which
no advisory call happens are simply unused). -/
def scheduleLoop (oracle : Nat → LLMResponse) :
    Nat → List Task → List TimeSlot →
    List ScheduledEntry × List Conflict × List TimeSlot
  | _, [], availability => ([], [], availability)
  | k, task :: rest, availability =>
    let candidates := find_candidate_slots task availability
    if candidates = [] then
      let (plan, conflicts, grid) := scheduleLoop oracle (k + 1) rest availability
      (plan, { task := task.description,
               reason := .noSlot task.duration_minutes } :: conflicts, grid)
    else
      match llm_choose_best_slot candidates (oracle k) with
      | none =>
        let (plan, conflicts, grid) := scheduleLoop oracle (k + 1) rest availability
        (plan, { task := task.description, reason := .llmNoFeasible } :: conflicts, grid)
      | some best_slot_window =>
        -- `window[0].start` / `window[-1].end`; an empty window (possible
        -- only for a non-positive duration) raises `IndexError` in the
        -- source before reaching this point and is given the empty
        -- interval [0, 0) here.
        let start_time := (best_slot_window.headD default).start
        let end_time := (best_slot_window.getLastD default).endT
        let entry : ScheduledEntry :=
          { task_id := task.id
            description := task.description
            category := task.category
            date := start_time.ediv 1440
            start_time := start_time
            end_time := end_time
            duration_minutes := task.duration_minutes
            location := task.location }
        let availability' := mark_slots_unavailable availability start_time end_time
        let (plan, conflicts, grid) := scheduleLoop oracle (k + 1) rest availability'
        (entry :: plan, conflicts, grid)

/-- `schedule_tasks_intelligently(tasks, availability, preferences)`.
`preferences` only flows into the advisory prompt context, which the
oracle abstracts, so it is not a parameter here. -/
def schedule_tasks_intelligently (tasks : List Task)
    (availability : List TimeSlot) (oracle : Nat → LLMResponse) :
    SchedulingOutput :=
  let sorted_tasks := sortedTasks tasks
  let (plan, conflicts, grid) := scheduleLoop oracle 0 sorted_tasks availability
  { scheduled_plan := plan
    conflicts := conflicts
    needs_user_input := conflicts.length > 0
    final_availability := grid }

/-! ### Orchestration controller (`scheduler_graph.py`) -/

/-- The nodes of the LangGraph workflow (plus the `END` sentinel). -/
inductive Node where
  | decompose
  | schedule
  | askUser
  | integrate
  | mealAdvisor
  | done
  deriving Repr, DecidableEq

/-- The control-flow slice of the LangGraph-carried `AgentState`
(`state.py`): `needs_user_input` is a declared key of the TypedDict and
so has a channel that persists between supersteps.
`conflict_resolution_attempts` is NOT declared in `AgentState` — it is
read and written only inside `route_after_scheduling` — so it has no
channel and never persists; it is therefore not a field of the carried
state.  `node` is the current graph node and `passes` a ghost counter of
completed scheduling passes. -/
structure OrchState where
  node : Node
  needs_user_input : Bool
  passes : Nat
  deriving Repr, DecidableEq

/-- The two strings `route_after_scheduling` can return. -/
inductive RouteLabel where
  | ask_user
  | integrate
  deriving Repr, DecidableEq

/-- The per-call snapshot of the state dict as `route_after_scheduling`
reads it: `state.get("conflict_resolution_attempts", 0)` and
`state.get("needs_user_input", False)`. -/
structure RouteSnapshot where
  conflict_resolution_attempts : Nat
  needs_user_input : Bool
  deriving Repr, DecidableEq

/-- `route_after_scheduling` of `scheduler_graph.py`, as a function of its
snapshot: with `max_conflict_retries = 3`, an attempt count at the cap
sets `needs_user_input := False` and returns `"integrate"`; otherwise
conflicts increment the counter and return `"ask_user"`; no conflicts
return `"integrate"`.  The function's writes to the snapshot are modelled
in the first component, but LangGraph uses only the returned label: a
conditional-edge path function's mutations are never committed back to
the channels. -/
def route_after_scheduling (s : RouteSnapshot) : RouteSnapshot × RouteLabel :=
  let max_conflict_retries := 3
  if s.conflict_resolution_attempts ≥ max_conflict_retries then
    ({ s with needs_user_input := false }, .integrate)
  else if s.needs_user_input then
    ({ s with conflict_resolution_attempts :=
        s.conflict_resolution_attempts + 1 }, .ask_user)
  else (s, .integrate)

/-- One superstep of the compiled graph.  `schedOracle k` is the
`needs_user_input` flag produced by the `k`-th scheduling pass (the
`Agent2Adapter` writes this declared key from the scheduling result, or
`False` on an internal error).  After the `schedule` node the conditional
edge calls `route_after_scheduling` on a snapshot rebuilt from the
channels: `conflict_resolution_attempts` has no channel, so
`state.get("conflict_resolution_attempts", 0)` is 0 on *every* call, and
the routing function's mutations (the increment, and the forced
`needs_user_input = False` at the cap) are discarded — only the returned
label picks the successor node.  `ask_user` writes only the undeclared
`show_conflicts_to_user` key (likewise dropped) and loops back to
`schedule`; `integrate` leads to `meal_advisor` and then `END`. -/
def graphStep (schedOracle : Nat → Bool) (s : OrchState) : OrchState :=
  match s.node with
  | .decompose => { s with node := .schedule }
  | .schedule =>
    let needs := schedOracle s.passes
    match (route_after_scheduling
        { conflict_resolution_attempts := 0, needs_user_input := needs }).2 with
    | .ask_user => { node := .askUser, needs_user_input := needs,
                     passes := s.passes + 1 }
    | .integrate => { node := .integrate, needs_user_input := needs,
                      passes := s.passes + 1 }
  | .askUser => { s with node := .schedule }
  | .integrate => { s with node := .mealAdvisor }
  | .mealAdvisor => { s with node := .done }
  | .done => s

/-- The initial state of a workflow run (`create_initial_state` sets
`needs_user_input = False`; there is no attempt counter to initialise). -/
def initOrchState : OrchState :=
  { node := .decompose, needs_user_input := false, passes := 0 }

/-- Run the workflow for `n` supersteps. -/
def runGraph (schedOracle : Nat → Bool) (n : Nat) : OrchState :=
  (graphStep schedOracle)^[n] initOrchState

/-! ## Helper lemmas -/

theorem overlaps_comm {a b c d : Int} : overlaps a b c d ↔ overlaps c d a b := by
  unfold overlaps; tauto

/-- One grid state weakens another: same slot times, and any slot still
available in the new state was available in the old one. -/
def availability_non_increasing (old new : List TimeSlot) : Prop :=
  List.Forall₂
    (fun o n => n.start = o.start ∧ n.endT = o.endT ∧
      (n.available = true → o.available = true))
    old new

theorem availability_non_increasing_refl (l : List TimeSlot) :
    availability_non_increasing l l := by
  rw [availability_non_increasing, List.forall₂_same]
  exact fun x _ => ⟨rfl, rfl, fun h => h⟩

theorem availability_non_increasing_trans {a b c : List TimeSlot}
    (hab : availability_non_increasing a b)
    (hbc : availability_non_increasing b c) :
    availability_non_increasing a c := by
  unfold availability_non_increasing at *
  induction hab generalizing c with
  | nil => cases hbc; exact .nil
  | cons h _ ih =>
    cases hbc with
    | cons h' t' =>
      exact .cons
        ⟨h'.1.trans h.1, h'.2.1.trans h.2.1, fun hv => h.2.2 (h'.2.2 hv)⟩
        (ih t')

theorem mark_slots_unavailable_mono (slots : List TimeSlot) (a b : Int) :
    availability_non_increasing slots (mark_slots_unavailable slots a b) := by
  unfold availability_non_increasing mark_slots_unavailable
  rw [List.forall₂_map_right_iff, List.forall₂_same]
  intro s _
  by_cases h : s.start < b ∧ s.endT > a <;> simp [h]

theorem apply_preferences_mono (slots : List TimeSlot) (p : Preferences) :
    availability_non_increasing slots (apply_preferences slots p) := by
  have h1 : availability_non_increasing slots
      (slots.map fun slot =>
        if p.work_hours_start.getD 540 ≤ slot.start.emod 1440 ∧
            slot.start.emod 1440 < p.work_hours_end.getD 1020 then slot
        else { slot with available := false }) := by
    unfold availability_non_increasing
    rw [List.forall₂_map_right_iff, List.forall₂_same]
    intro s _
    by_cases h : p.work_hours_start.getD 540 ≤ s.start.emod 1440 ∧
        s.start.emod 1440 < p.work_hours_end.getD 1020 <;> simp [h]
  simp only [apply_preferences]
  split
  · next hm =>
    rw [List.map_eq_nil_iff] at hm
    subst hm
    exact availability_non_increasing_refl []
  · next s0 rest hm =>
    rw [hm] at h1
    rw [hm]
    exact availability_non_increasing_trans h1
      (mark_slots_unavailable_mono (s0 :: rest) _ _)

theorem scheduleLoop_grid_mono (oracle : Nat → LLMResponse) :
    ∀ (ts : List Task) (k : Nat) (g : List TimeSlot),
      availability_non_increasing g (scheduleLoop oracle k ts g).2.2 := by
  intro ts
  induction ts with
  | nil => intro k g; exact availability_non_increasing_refl g
  | cons t rest ih =>
    intro k g
    rw [scheduleLoop]
    by_cases hc : find_candidate_slots t g = []
    · simpa [hc] using ih (k + 1) g
    · simp only [hc, if_neg (by simpa using hc)]
      cases hllm : llm_choose_best_slot (find_candidate_slots t g) (oracle k) with
      | none => simpa using ih (k + 1) g
      | some w =>
        simp only []
        exact availability_non_increasing_trans
          (mark_slots_unavailable_mono g _ _) (ih (k + 1) _)

/-- Claim C10 (invariants): within one scheduling invocation, slot
availability is monotonically non-increasing — preference application,
busy-block marking (`mark_slots_unavailable`, also used for placement of a
selected window) and the whole engine run only flip slots from available
to unavailable, preserve the slot times, and never set an `available` flag
back to `true`. -/
theorem availability_monotone_non_increasing :
    (∀ (slots : List TimeSlot) (a b : Int),
      availability_non_increasing slots (mark_slots_unavailable slots a b)) ∧
    (∀ (slots : List TimeSlot) (p : Preferences),
      availability_non_increasing slots (apply_preferences slots p)) ∧
    (∀ (tasks : List Task) (g : List TimeSlot) (oracle : Nat → LLMResponse),
      availability_non_increasing g
        (schedule_tasks_intelligently tasks g oracle).final_availability) :=
  ⟨mark_slots_unavailable_mono, apply_preferences_mono,
    fun tasks g oracle => scheduleLoop_grid_mono oracle (sortedTasks tasks) 0 g⟩

/-! ### Orchestration-loop behaviour (C2) -/

theorem graphStep_conflict_cases (p : Nat) (u : Bool) :
    (graphStep (fun _ => true) ⟨.decompose, u, p⟩ = ⟨.schedule, u, p⟩) ∧
    (graphStep (fun _ => true) ⟨.schedule, u, p⟩ = ⟨.askUser, true, p + 1⟩) ∧
    (graphStep (fun _ => true) ⟨.askUser, u, p⟩ = ⟨.schedule, u, p⟩) := by
  refine ⟨rfl, ?_, rfl⟩
  simp [graphStep, route_after_scheduling]

theorem runGraph_always_conflict_nodes :
    ∀ n : Nat, (runGraph (fun _ => true) n).node = Node.decompose ∨
      (runGraph (fun _ => true) n).node = Node.schedule ∨
      (runGraph (fun _ => true) n).node = Node.askUser := by
  intro n
  induction n with
  | zero => exact Or.inl rfl
  | succ n ih =>
    have hsucc : runGraph (fun _ => true) (n + 1) =
        graphStep (fun _ => true) (runGraph (fun _ => true) n) :=
      Function.iterate_succ_apply' _ _ _
    rcases hs : runGraph (fun _ => true) n with ⟨nd, u, p⟩
    rw [hs] at ih
    rw [hsucc, hs]
    have hstep := graphStep_conflict_cases p u
    rcases ih with h | h | h <;> cases h
    · rw [hstep.1]; exact Or.inr (Or.inl rfl)
    · rw [hstep.2.1]; exact Or.inr (Or.inr rfl)
    · rw [hstep.2.2]; exact Or.inr (Or.inl rfl)

/-- Claim C2 (code_bug evidence): the bounded-retry cap is unreachable in
the program.  `conflict_resolution_attempts` is not a declared `AgentState`
key, so it has no LangGraph channel and the routing function's increment
is discarded: every routing call reads the counter as 0, so a conflicting
pass always routes to `ask_user`, and a run whose every scheduling pass
produces conflicts never reaches the terminal state and accumulates
scheduling passes without bound — 6 passes within 12 supersteps, against
the claimed maximum of `max_retries + 1 = 4`.  Only LangGraph's external
recursion limit (an exception, not the claimed forced route to
`Integrate`) ends such a run. -/
theorem retry_cap_unreachable :
    ((route_after_scheduling
        { conflict_resolution_attempts := 0, needs_user_input := true }).2 =
      RouteLabel.ask_user) ∧
    (∀ n : Nat, (runGraph (fun _ => true) n).node ≠ Node.done) ∧
    (runGraph (fun _ => true) 12).passes = 6 := by
  refine ⟨rfl, ?_, by decide⟩
  intro n hdone
  rcases runGraph_always_conflict_nodes n with h | h | h <;>
    rw [hdone] at h <;> cases h


/-! ### Slot-selection lemmas (C4) -/

/-- A returned window always comes from the candidate list. -/
theorem llm_choose_best_slot_mem {candidates : List (List TimeSlot)}
    {r : LLMResponse} {w : List TimeSlot}
    (h : llm_choose_best_slot candidates r = some w) : w ∈ candidates := by
  unfold llm_choose_best_slot at h
  match r with
  | .invalid => exact List.mem_of_mem_head? h
  | .valid none => cases h
  | .valid (some s) =>
    simp only [] at h
    split at h
    · cases h
    · split at h
      · cases h
      · split at h
        · cases h
        · split at h
          · cases h
          · split at h
            · cases h
            · exact List.getElem?_mem h

/-- Counterexample to claim C4: with a single candidate, a well-formed
advisory response naming the out-of-range id `slot_b` does *not* fall back
to `candidates[0]`: selection returns `None`, and the scheduling pass
turns that into a conflict entry. -/
theorem advisory_out_of_range_counterexample :
    (llm_choose_best_slot [[{ start := 0, endT := 15 }]]
        (.valid (some ['s', 'l', 'o', 't', '_', 'b'])) = none) ∧
    (schedule_tasks_intelligently
        [{ id := "t1", description := some "T1", duration_minutes := 15,
           priority_num := 1 }]
        [{ start := 0, endT := 15 }]
        (fun _ => .valid (some ['s', 'l', 'o', 't', '_', 'b']))).conflicts =
      [{ task := some "T1", reason := .llmNoFeasible }] := by
  constructor <;> rfl

/-- Claim C4, amended (error handling): for every non-empty candidate
list, an *unparseable* advisory response (an exception while decoding the
JSON) falls back to the deterministic strategy and returns
`candidates[0]`; but a parseable response that names an out-of-range index
`slot_<letter>` returns `None` rather than falling back, and the engine
then records a conflict for the task. -/
theorem advisory_failure_behaviour (candidates : List (List TimeSlot))
    (hne : candidates ≠ []) :
    (llm_choose_best_slot candidates .invalid = candidates.head?) ∧
    (∀ c : Char, 'a' ≤ c → c ≤ 'z' → candidates.length ≤ c.toNat - 97 →
      llm_choose_best_slot candidates (.valid (some (slotTag ++ [c]))) = none) := by
  refine ⟨rfl, ?_⟩
  intro c hca hcz hlen
  have hc_ne : ¬ (c = '_') := by
    intro h; subst h; exact absurd hca (by decide)
  have hsplit : splitChar '_' ['s', 'l', 'o', 't', '_', c] =
      [['s', 'l', 'o', 't'], [c]] := by
    simp [splitChar, hc_ne]
  have hbegins : strBegins ['s', 'l', 'o', 't', '_', c] slotTag = true := by
    simp [slotTag, strBegins]
  have hlower : charLower c = c := by
    unfold charLower
    rw [if_neg]
    intro hcz'
    exact absurd (le_trans hca hcz'.2) (by decide)
  have h1 : ¬ (c < 'a') := not_lt.mpr hca
  have h2 : ¬ ('z' < c) := not_lt.mpr hcz
  have happ : slotTag ++ [c] = ['s', 'l', 'o', 't', '_', c] := rfl
  rw [happ]
  simp only [llm_choose_best_slot, hbegins, hsplit, hlower]
  simp only [List.getD, List.getElem?_cons_succ, List.getElem?_cons_zero,
    Option.getD_some, List.headD]
  rw [if_neg (by simp), if_neg (by simp), if_neg (by simp), if_neg (by simp),
    if_neg (by simp [hlower, h1, h2])]
  simp only [List.get?_cons_succ, List.get?_cons_zero, Option.getD_some, hlower]
  exact List.getElem?_eq_none hlen

/-- Witness for the amended C4 at a concrete candidate list and letter. -/
theorem advisory_failure_behaviour_witness :
    (llm_choose_best_slot [[{ start := 0, endT := 15 }]] .invalid =
      some [{ start := 0, endT := 15 }]) ∧
    llm_choose_best_slot [[{ start := 0, endT := 15 }]]
      (.valid (some (slotTag ++ ['c']))) = none := by
  have h := advisory_failure_behaviour [[{ start := 0, endT := 15 }]] (by decide)
  exact ⟨h.1, h.2 'c' (by decide) (by decide) (by decide)⟩

/-! ### Input-validation behaviour (C5) -/

/-- Counterexample to claim C5: a task record with *missing*
`duration_minutes` is not rejected — `from_json` defaults the duration to
60 minutes and a full scheduling pass happily places the task (no error,
no conflict). -/
theorem missing_duration_not_rejected_counterexample :
    (Task.from_json "id0" { title := some "write report" }).duration_minutes = 60 ∧
    (schedule_tasks_intelligently
        [Task.from_json "id0" { title := some "write report" }]
        (build_availability_matrix 0 [] {}) (fun _ => .invalid)).scheduled_plan ≠ [] ∧
    (schedule_tasks_intelligently
        [Task.from_json "id0" { title := some "write report" }]
        (build_availability_matrix 0 [] {}) (fun _ => .invalid)).conflicts = [] := by
  refine ⟨rfl, ?_, ?_⟩ <;> decide

/-- Claim C5, amended (error handling): invalid durations are *not*
rejected before grid work.  A missing `duration_minutes` is silently
defaulted to 60 and scheduled; a zero or negative duration makes the
required-slot count non-positive, so every candidate window produced for
it is empty (in the source this later raises an uncaught `IndexError`
inside slot selection — there is no upfront validation and no single
surfaced error). -/
theorem invalid_duration_not_rejected :
    (∀ (newId : String) (data : TaskJson), data.duration_minutes = none →
      (Task.from_json newId data).duration_minutes = 60) ∧
    (∀ (t : Task) (g : List TimeSlot), t.duration_minutes ≤ 0 →
      ∀ w ∈ find_candidate_slots t g 15, w = []) := by
  constructor
  · intro newId data hd
    simp [Task.from_json, hd]
  · intro t g hd w hw
    have hreq : required_slots_count t 15 ≤ 0 := by
      unfold required_slots_count
      rw [neg_nonpos]
      exact Int.fdiv_nonneg (by omega) (by decide)
    unfold find_candidate_slots at hw
    rw [List.mem_filterMap] at hw
    obtain ⟨i, _, hi⟩ := hw
    rw [Int.toNat_of_nonpos hreq] at hi
    simp only [List.take_zero, List.all_nil, if_pos] at hi
    exact (Option.some_inj.mp hi).symm

/-- Witness for the amended C5 at a concrete record and task. -/
theorem invalid_duration_not_rejected_witness :
    (Task.from_json "x" { title := some "call mom" }).duration_minutes = 60 ∧
    (∀ w ∈ find_candidate_slots
        { id := "z", duration_minutes := 0 : Task }
        [{ start := 0, endT := 15 }] 15, w = []) :=
  ⟨invalid_duration_not_rejected.1 "x" { title := some "call mom" } rfl,
    invalid_duration_not_rejected.2 { id := "z", duration_minutes := 0 }
      [{ start := 0, endT := 15 }] (by decide)⟩

/-! ### Candidate-finder characterisation (C7) -/

/-- The Python idiom `-(-d // s)` is the ceiling `(d + s - 1) / s` (for a
positive divisor; `/` is Euclidean = floor division here). -/
theorem neg_fdiv_neg_eq_ceil (d s : Int) (hs : 0 < s) :
    -(Int.fdiv (-d) s) = (d + s - 1) / s := by
  rw [Int.fdiv_eq_ediv _ (le_of_lt hs)]
  set q := (-d) / s with hq
  have hlow : q * s ≤ -d := Int.ediv_mul_le _ (ne_of_gt hs)
  have hhigh : -d < (q + 1) * s := Int.lt_ediv_add_one_mul_self _ hs
  apply le_antisymm
  · rw [Int.le_ediv_iff_mul_le hs]
    nlinarith
  · have h1 : (d + s - 1) / s < -q + 1 := by
      rw [Int.ediv_lt_iff_lt_mul hs]
      nlinarith
    omega

/-- Guarded `filterMap` is filter-then-map. -/
theorem filterMap_guard_eq {α β : Type} (f : α → β) (p : β → Bool) (l : List α) :
    (l.filterMap fun i => if p (f i) then some (f i) else none) =
      (l.filter fun i => p (f i)).map f := by
  induction l with
  | nil => rfl
  | cons x xs ih =>
    by_cases h : p (f x) <;>
      simp [List.filterMap_cons, List.filter_cons, h, ih]

/-- Claim C7 (functional correctness): for every task with positive
duration, `find_candidate_slots` computes the required window length as
the ceiling of `duration_minutes / granularity_minutes` and returns
exactly the windows of that length all of whose slots are available, in
chronological grid order (increasing start position), without
deduplicating overlapping windows: the result is literally the in-order
list of every qualifying start position's window. -/
theorem find_candidate_slots_spec (t : Task) (g : List TimeSlot)
    (slotDur : Int) (hd : 0 < t.duration_minutes) (hs : 0 < slotDur) :
    (required_slots_count t slotDur =
        (t.duration_minutes + slotDur - 1) / slotDur) ∧
    (find_candidate_slots t g slotDur =
      ((List.range (g.length + 1 - (required_slots_count t slotDur).toNat)).filter
          (fun i =>
            ((g.drop i).take (required_slots_count t slotDur).toNat).all
              (·.available))).map
        (fun i => (g.drop i).take (required_slots_count t slotDur).toNat)) ∧
    (∀ w ∈ find_candidate_slots t g slotDur,
      w.length = (required_slots_count t slotDur).toNat) ∧
    (∀ w ∈ find_candidate_slots t g slotDur, ∀ s ∈ w, s.available = true) := by
  have hceil : required_slots_count t slotDur =
      (t.duration_minutes + slotDur - 1) / slotDur :=
    neg_fdiv_neg_eq_ceil t.duration_minutes slotDur hs
  have hpos : 1 ≤ required_slots_count t slotDur := by
    rw [hceil, Int.le_ediv_iff_mul_le hs]
    omega
  have hcount : ((g.length : Int) - required_slots_count t slotDur + 1).toNat =
      g.length + 1 - (required_slots_count t slotDur).toNat := by
    omega
  have hmain : find_candidate_slots t g slotDur =
      ((List.range (g.length + 1 - (required_slots_count t slotDur).toNat)).filter
          (fun i =>
            ((g.drop i).take (required_slots_count t slotDur).toNat).all
              (·.available))).map
        (fun i => (g.drop i).take (required_slots_count t slotDur).toNat) := by
    rw [find_candidate_slots, hcount]
    exact filterMap_guard_eq
      (fun i => (g.drop i).take (required_slots_count t slotDur).toNat)
      (fun w => w.all (·.available)) _
  refine ⟨hceil, hmain, ?_, ?_⟩
  · intro w hw
    rw [hmain] at hw
    rw [List.mem_map] at hw
    obtain ⟨i, hi, rfl⟩ := hw
    have hir := List.mem_range.mp (List.mem_filter.mp hi).1
    rw [List.length_take, List.length_drop]
    omega
  · intro w hw s hsw
    rw [hmain] at hw
    rw [List.mem_map] at hw
    obtain ⟨i, hi, rfl⟩ := hw
    have hall := (List.mem_filter.mp hi).2
    exact List.all_eq_true.mp hall s hsw

/-- Witness for C7 at a concrete 40-minute task and 4-slot grid. -/
theorem find_candidate_slots_spec_witness :
    (required_slots_count { id := "t", duration_minutes := 40 : Task } 15 =
      (40 + 15 - 1) / 15) ∧
    (∀ w ∈ find_candidate_slots { id := "t", duration_minutes := 40 : Task }
        [{ start := 0, endT := 15 }, { start := 15, endT := 30 },
         { start := 30, endT := 45 }, { start := 45, endT := 60 }] 15,
      w.length = (required_slots_count
        { id := "t", duration_minutes := 40 : Task } 15).toNat) := by
  have h := find_candidate_slots_spec { id := "t", duration_minutes := 40 }
    [{ start := 0, endT := 15 }, { start := 15, endT := 30 },
     { start := 30, endT := 45 }, { start := 45, endT := 60 }] 15
    (by decide) (by decide)
  exact ⟨h.1, h.2.2.1⟩

/-! ### Preference application (C8) -/

/-- The per-slot work-hours transformation inside `apply_preferences`
(named here so that equations about it can be stated). -/
def workHoursF (p : Preferences) (slot : TimeSlot) : TimeSlot :=
  if p.work_hours_start.getD 540 ≤ slot.start.emod 1440 ∧
      slot.start.emod 1440 < p.work_hours_end.getD 1020 then slot
  else { slot with available := false }

theorem workHoursF_start (p : Preferences) (s : TimeSlot) :
    (workHoursF p s).start = s.start := by
  unfold workHoursF; split <;> rfl

theorem apply_preferences_cons (p : Preferences) (s0 : TimeSlot)
    (rest : List TimeSlot) :
    apply_preferences (s0 :: rest) p =
      mark_slots_unavailable ((s0 :: rest).map (workHoursF p))
        ((s0.start.ediv 1440) * 1440 + p.lunch_time_start.getD 780)
        ((s0.start.ediv 1440) * 1440 + p.lunch_time_start.getD 780 +
          p.lunch_duration_minutes.getD 60) := by
  unfold apply_preferences workHoursF
  simp only [List.map_cons]
  by_cases h : p.work_hours_start.getD 540 ≤ s0.start.emod 1440 ∧
      s0.start.emod 1440 < p.work_hours_end.getD 1020
  · rw [if_pos h]
  · rw [if_neg h]

/-- Counterexample to claim C8: with `work_hours_end = "17:10"` (1030
minutes) and all other preferences defaulted, the slot 17:00–17:15 of a
fresh day grid *overlaps* the outside-work-hours blackout
`[17:10, 24:00)` but is left available by `apply_preferences`, because the
source tests only the slot's start time against the work-hours window,
not interval overlap. -/
theorem work_hours_overlap_counterexample :
    ((apply_preferences (initialize_day_slots 0 15)
        { work_hours_end := some 1030 }).getD 68 default =
      { start := 1020, endT := 1035, available := true }) ∧
    overlaps 1020 1035 1030 1440 := by
  constructor
  · decide
  · decide

/-- Claim C8, amended (functional correctness): for every preferences
dict and non-empty slot list, `apply_preferences` marks unavailable
exactly those slots whose *start* time-of-day lies outside the work-hours
window `[work_hours_start, work_hours_end)` (defaults 09:00–17:00) or
whose half-open interval overlaps the lunch window
`[lunch_start, lunch_start + lunch_duration)` (defaults 13:00 for 60
minutes) anchored on the first slot's date; all other slots keep their
previous availability and every slot keeps its times. -/
theorem apply_preferences_characterisation (slots : List TimeSlot)
    (p : Preferences) (h : slots ≠ []) :
    apply_preferences slots p =
      slots.map fun s =>
        if (p.work_hours_start.getD 540 ≤ s.start.emod 1440 ∧
              s.start.emod 1440 < p.work_hours_end.getD 1020) ∧
            ¬ overlaps s.start s.endT
                (((slots.headD default).start.ediv 1440) * 1440 +
                  p.lunch_time_start.getD 780)
                (((slots.headD default).start.ediv 1440) * 1440 +
                  p.lunch_time_start.getD 780 + p.lunch_duration_minutes.getD 60)
          then s else { s with available := false } := by
  match slots, h with
  | s0 :: rest, _ =>
    rw [apply_preferences_cons]
    unfold mark_slots_unavailable
    rw [List.map_map]
    apply List.map_congr_left
    intro x _
    simp only [Function.comp_apply, List.headD_cons]
    by_cases hw : p.work_hours_start.getD 540 ≤ x.start.emod 1440 ∧
        x.start.emod 1440 < p.work_hours_end.getD 1020
    · by_cases hov : overlaps x.start x.endT
          ((s0.start.ediv 1440) * 1440 + p.lunch_time_start.getD 780)
          ((s0.start.ediv 1440) * 1440 + p.lunch_time_start.getD 780 +
            p.lunch_duration_minutes.getD 60)
      · unfold workHoursF
        rw [if_pos hw, if_pos ⟨hov.1, hov.2⟩, if_neg (fun hc => hc.2 hov)]
      · unfold workHoursF
        rw [if_pos hw, if_neg (fun hc => hov ⟨hc.1, hc.2⟩), if_pos ⟨hw, hov⟩]
    · unfold workHoursF
      rw [if_neg hw,
        if_neg (show ¬ ((p.work_hours_start.getD 540 ≤ x.start.emod 1440 ∧
            x.start.emod 1440 < p.work_hours_end.getD 1020) ∧
            ¬ overlaps x.start x.endT
              ((s0.start.ediv 1440) * 1440 + p.lunch_time_start.getD 780)
              ((s0.start.ediv 1440) * 1440 + p.lunch_time_start.getD 780 +
                p.lunch_duration_minutes.getD 60))
          from fun hc => hw hc.1)]
      split <;> rfl
  | [], h => exact absurd rfl h

/-- Witness for the amended C8: a slot starting before work hours is
blacked out. -/
theorem apply_preferences_characterisation_witness :
    apply_preferences [{ start := 500, endT := 515 }] {} =
      [{ start := 500, endT := 515, available := false }] := by
  rw [apply_preferences_characterisation [{ start := 500, endT := 515 }] {}
    (by decide)]
  decide

/-! ### Task-ordering lemmas (C3) -/

/-- The sort key `(t.priority_num, deadline or datetime.max)`. -/
def taskKey (t : Task) : Int × Int := (t.priority_num, deadlineKey t)

theorem taskKeyLE_of_not_LT {a b : Task} (h : ¬ taskKeyLT b a = true) :
    taskKeyLE a b = true := by
  simp only [taskKeyLT, taskKeyLE, decide_eq_true_eq] at *
  omega

theorem taskKeyLE_trans {a b c : Task} (hab : taskKeyLE a b = true)
    (hbc : taskKeyLE b c = true) : taskKeyLE a c = true := by
  simp only [taskKeyLE, decide_eq_true_eq] at *
  omega

theorem taskKeyLE_of_LT {a b : Task} (h : taskKeyLT a b = true) :
    taskKeyLE a b = true := by
  simp only [taskKeyLT, taskKeyLE, decide_eq_true_eq] at *
  omega

theorem taskKey_ne_of_LT {a b : Task} (h : taskKeyLT a b = true) :
    taskKey a ≠ taskKey b := by
  simp only [taskKeyLT, decide_eq_true_eq] at h
  simp only [taskKey, ne_eq, Prod.mk.injEq, not_and]
  omega

theorem stableInsert_perm (a : Task) :
    ∀ l : List Task, (stableInsert a l).Perm (a :: l) := by
  intro l
  induction l with
  | nil => rfl
  | cons b bs ih =>
    rw [stableInsert]
    split
    · exact (ih.cons b).trans (List.Perm.swap a b bs)
    · rfl

theorem sortedTasks_perm (ts : List Task) : (sortedTasks ts).Perm ts := by
  induction ts with
  | nil => rfl
  | cons t rest ih =>
    rw [sortedTasks]
    exact (stableInsert_perm t (sortedTasks rest)).trans (ih.cons t)

theorem stableInsert_sorted (a : Task) (l : List Task)
    (hl : List.Sorted (fun x y => taskKeyLE x y = true) l) :
    List.Sorted (fun x y => taskKeyLE x y = true) (stableInsert a l) := by
  induction l with
  | nil => exact List.sorted_singleton a
  | cons b bs ih =>
    rw [stableInsert]
    rw [List.sorted_cons] at hl
    split
    · next hlt =>
      rw [List.sorted_cons]
      refine ⟨?_, ih hl.2⟩
      intro x hx
      have hx' := (stableInsert_perm a bs).mem_iff.mp hx
      rcases List.mem_cons.mp hx' with hx2 | hx2
      · subst hx2
        exact taskKeyLE_of_LT hlt
      · exact hl.1 x hx2
    · next hlt =>
      rw [List.sorted_cons]
      refine ⟨?_, List.sorted_cons.mpr hl⟩
      intro x hx
      rcases List.mem_cons.mp hx with hx2 | hx2
      · subst hx2
        exact taskKeyLE_of_not_LT hlt
      · exact taskKeyLE_trans (taskKeyLE_of_not_LT hlt) (hl.1 x hx2)

theorem sortedTasks_sorted (ts : List Task) :
    List.Sorted (fun x y => taskKeyLE x y = true) (sortedTasks ts) := by
  induction ts with
  | nil => exact List.sorted_nil
  | cons t rest ih => exact stableInsert_sorted t (sortedTasks rest) ih

theorem stableInsert_filter (a : Task) (κ : Int × Int) :
    ∀ l : List Task,
      (stableInsert a l).filter (fun t => taskKey t = κ) =
        if taskKey a = κ then a :: l.filter (fun t => taskKey t = κ)
        else l.filter (fun t => taskKey t = κ) := by
  intro l
  induction l with
  | nil =>
    by_cases h : taskKey a = κ <;> simp [stableInsert, List.filter_cons, h]
  | cons b bs ih =>
    rw [stableInsert]
    split
    · next hlt =>
      by_cases ha : taskKey a = κ
      · have hb : ¬ (taskKey b = κ) := fun hb =>
          taskKey_ne_of_LT hlt (hb.trans ha.symm)
        simp [List.filter_cons, ha, hb, ih]
      · by_cases hb : taskKey b = κ <;> simp [List.filter_cons, ha, hb, ih]
    · next hlt =>
      by_cases ha : taskKey a = κ <;> simp [List.filter_cons, ha]

theorem sortedTasks_filter (κ : Int × Int) (ts : List Task) :
    (sortedTasks ts).filter (fun t => taskKey t = κ) =
      ts.filter (fun t => taskKey t = κ) := by
  induction ts with
  | nil => rfl
  | cons t rest ih =>
    rw [sortedTasks, stableInsert_filter, ih]
    by_cases h : taskKey t = κ <;> simp [List.filter_cons, h]

/-- Claim C3 (functional correctness): the engine attempts placement in
the order of a stable sort on `(priority_num ascending, deadline ascending
with absent deadlines keyed as datetime.max and hence sorted last,
original input order)`: `sortedTasks` is a permutation of the input,
sorted by that key, and stable (each key class keeps its input order);
at equal priority a task with a (representable) deadline sorts strictly
before one without; and consequently, for two tasks where the
higher-priority one fits and is selected, the higher-priority task is
placed and every conflict of the run falls on the lower-priority task,
never the reverse. -/
theorem stable_priority_ordering :
    (∀ tasks : List Task, (sortedTasks tasks).Perm tasks) ∧
    (∀ tasks : List Task,
      List.Sorted (fun x y => taskKeyLE x y = true) (sortedTasks tasks)) ∧
    (∀ (tasks : List Task) (κ : Int × Int),
      (sortedTasks tasks).filter (fun t => taskKey t = κ) =
        tasks.filter (fun t => taskKey t = κ)) ∧
    (∀ a b : Task, a.priority_num = b.priority_num →
      ∀ da, a.deadline = some da → da < dtMax → b.deadline = none →
        taskKeyLT a b = true) ∧
    (∀ (A B : Task) (g : List TimeSlot) (oracle : Nat → LLMResponse),
      A.priority_num < B.priority_num →
      find_candidate_slots A g ≠ [] →
      llm_choose_best_slot (find_candidate_slots A g) (oracle 0) ≠ none →
      (∃ e ∈ (schedule_tasks_intelligently [B, A] g oracle).scheduled_plan,
        e.task_id = A.id) ∧
      (∀ c ∈ (schedule_tasks_intelligently [B, A] g oracle).conflicts,
        c.task = B.description)) := by
  refine ⟨sortedTasks_perm, sortedTasks_sorted,
    fun tasks κ => sortedTasks_filter κ tasks, ?_, ?_⟩
  · intro a b hp da hda hmax hdb
    simp only [taskKeyLT, deadlineKey, hda, hdb, Option.getD_some,
      Option.getD_none, decide_eq_true_eq]
    omega
  · intro A B g oracle hp hA hllm
    have hAB : taskKeyLT A B = true := by
      simp only [taskKeyLT, decide_eq_true_eq]
      exact Or.inl hp
    have hsort : sortedTasks [B, A] = [A, B] := by
      show stableInsert B (stableInsert A (sortedTasks [])) = [A, B]
      show stableInsert B [A] = [A, B]
      rw [stableInsert, if_pos hAB]
      rfl
    obtain ⟨w, hw⟩ := Option.ne_none_iff_exists'.mp hllm
    have hBconf : ∀ (k : Nat) (g' : List TimeSlot),
        ∀ c ∈ (scheduleLoop oracle k [B] g').2.1, c.task = B.description := by
      intro k g' c hc
      rw [scheduleLoop] at hc
      by_cases h1 : find_candidate_slots B g' = []
      · simp only [h1, if_pos, scheduleLoop] at hc
        rw [List.mem_singleton] at hc
        rw [hc]
      · simp only [if_neg (by simpa using h1)] at hc
        cases h2 : llm_choose_best_slot (find_candidate_slots B g') (oracle k) with
        | none =>
          rw [h2] at hc
          simp only [scheduleLoop] at hc
          rw [List.mem_singleton] at hc
          rw [hc]
        | some w' =>
          rw [h2] at hc
          simp only [scheduleLoop] at hc
          exact absurd hc (List.not_mem_nil c)
    constructor
    · simp only [schedule_tasks_intelligently, hsort]
      rw [scheduleLoop]
      simp only [if_neg (by simpa using hA), hw]
      exact ⟨_, List.mem_cons_self _ _, rfl⟩
    · intro c hc
      simp only [schedule_tasks_intelligently, hsort] at hc
      rw [scheduleLoop] at hc
      simp only [if_neg (by simpa using hA), hw] at hc
      exact hBconf 1 _ c hc

/-- Two concrete tasks for the C3 witness: `cexA3` is higher priority. -/
def cexA3 : Task :=
  { id := "A", description := some "A", duration_minutes := 30, priority_num := 1 }

/-- Lower-priority 45-minute task for the C3 witness. -/
def cexB3 : Task :=
  { id := "B", description := some "B", duration_minutes := 45, priority_num := 3 }

/-- One-hour four-slot grid for the C3 witness. -/
def cexG3 : List TimeSlot :=
  [{ start := 0, endT := 15 }, { start := 15, endT := 30 },
   { start := 30, endT := 45 }, { start := 45, endT := 60 }]

/-- Witness for C3: the higher-priority task is placed first and the only
conflict of the run belongs to the lower-priority task. -/
theorem stable_priority_ordering_witness :
    (taskKeyLT
      { id := "a", duration_minutes := 10, deadline := some 100, priority_num := 2 }
      { id := "b", duration_minutes := 10, priority_num := 2 } = true) ∧
    (∃ e ∈ (schedule_tasks_intelligently [cexB3, cexA3] cexG3
        (fun _ => .invalid)).scheduled_plan, e.task_id = "A") ∧
    (∀ c ∈ (schedule_tasks_intelligently [cexB3, cexA3] cexG3
        (fun _ => .invalid)).conflicts, c.task = some "B") := by
  have h := stable_priority_ordering.2.2.2.2 cexA3 cexB3 cexG3
    (fun _ => .invalid) (by decide) (by decide) (by decide)
  exact ⟨stable_priority_ordering.2.2.2.1 _ _ rfl 100 rfl (by decide) rfl,
    h.1, h.2⟩

/-! ### Conflict-completeness lemmas (C6) -/

theorem find_candidate_slots_mem {t : Task} {g : List TimeSlot}
    {slotDur : Int} {w : List TimeSlot}
    (hw : w ∈ find_candidate_slots t g slotDur) :
    ∃ i, i ∈ List.range
        (((g.length : Int) - required_slots_count t slotDur + 1).toNat) ∧
      w = (g.drop i).take (required_slots_count t slotDur).toNat ∧
      w.all (·.available) = true := by
  unfold find_candidate_slots at hw
  rw [List.mem_filterMap] at hw
  obtain ⟨i, hi, hval⟩ := hw
  by_cases hall : (((g.drop i).take (required_slots_count t slotDur).toNat).all
      (·.available)) = true
  · rw [if_pos hall] at hval
    exact ⟨i, hi, (Option.some_inj.mp hval).symm, Option.some_inj.mp hval ▸ hall⟩
  · rw [if_neg hall] at hval
    cases hval

theorem all_available_of_forall₂ {w w' : List TimeSlot}
    (hf : List.Forall₂
      (fun o n => n.start = o.start ∧ n.endT = o.endT ∧
        (n.available = true → o.available = true)) w w')
    (h : w'.all (·.available) = true) : w.all (·.available) = true := by
  induction hf with
  | nil => rfl
  | cons hr _ ih =>
    rw [List.all_cons] at h ⊢
    rw [Bool.and_eq_true] at h ⊢
    exact ⟨hr.2.2 h.1, ih h.2⟩

theorem find_candidate_slots_empty_mono {t : Task} {g g' : List TimeSlot}
    (hmono : availability_non_increasing g g')
    (h : find_candidate_slots t g = []) : find_candidate_slots t g' = [] := by
  have hlen : g.length = g'.length := List.Forall₂.length_eq hmono
  rw [List.eq_nil_iff_forall_not_mem] at h ⊢
  intro w' hw'
  obtain ⟨i, hi, hval, hall⟩ := find_candidate_slots_mem hw'
  have hf : List.Forall₂
      (fun o n => n.start = o.start ∧ n.endT = o.endT ∧
        (n.available = true → o.available = true))
      ((g.drop i).take (required_slots_count t 15).toNat)
      ((g'.drop i).take (required_slots_count t 15).toNat) :=
    List.forall₂_take _ (List.forall₂_drop _ hmono)
  refine h ((g.drop i).take (required_slots_count t 15).toNat) ?_
  unfold find_candidate_slots
  rw [List.mem_filterMap]
  refine ⟨i, ?_, ?_⟩
  · rw [List.mem_range] at hi ⊢
    omega
  · rw [if_pos (all_available_of_forall₂ hf (hval ▸ hall))]

theorem scheduleLoop_conflict_of_empty (oracle : Nat → LLMResponse) (t : Task) :
    ∀ (ts : List Task) (k : Nat) (g : List TimeSlot), t ∈ ts →
      find_candidate_slots t g = [] →
      ({ task := t.description, reason := .noSlot t.duration_minutes } : Conflict) ∈
        (scheduleLoop oracle k ts g).2.1 := by
  intro ts
  induction ts with
  | nil => intro k g h; cases h
  | cons t' rest ih =>
    intro k g hmem hempty
    rw [scheduleLoop]
    rcases List.mem_cons.mp hmem with heq | hmem'
    · subst heq
      simp only [hempty, if_pos, scheduleLoop]
      exact List.mem_cons_self _ _
    · by_cases h1 : find_candidate_slots t' g = []
      · simp only [h1, if_pos]
        exact List.mem_cons_of_mem _ (ih k.succ g hmem' hempty)
      · simp only [if_neg (by simpa using h1)]
        cases h2 : llm_choose_best_slot (find_candidate_slots t' g) (oracle k) with
        | none =>
          simp only []
          exact List.mem_cons_of_mem _ (ih k.succ g hmem' hempty)
        | some w =>
          simp only []
          refine ih k.succ _ hmem' ?_
          exact find_candidate_slots_empty_mono
            (mark_slots_unavailable_mono g _ _) hempty

theorem scheduleLoop_plan_sources (oracle : Nat → LLMResponse) :
    ∀ (ts : List Task) (k : Nat) (g : List TimeSlot),
      ∀ e ∈ (scheduleLoop oracle k ts g).1,
        ∃ t' ∈ ts, ∃ g', availability_non_increasing g g' ∧
          e.task_id = t'.id ∧ find_candidate_slots t' g' ≠ [] := by
  intro ts
  induction ts with
  | nil => intro k g e he; cases he
  | cons t' rest ih =>
    intro k g e he
    rw [scheduleLoop] at he
    by_cases h1 : find_candidate_slots t' g = []
    · simp only [h1, if_pos] at he
      obtain ⟨u, hu, g', hg', he1, he2⟩ := ih k.succ g e he
      exact ⟨u, List.mem_cons_of_mem _ hu, g', hg', he1, he2⟩
    · simp only [if_neg (by simpa using h1)] at he
      cases h2 : llm_choose_best_slot (find_candidate_slots t' g) (oracle k) with
      | none =>
        rw [h2] at he
        simp only [] at he
        obtain ⟨u, hu, g', hg', he1, he2⟩ := ih k.succ g e he
        exact ⟨u, List.mem_cons_of_mem _ hu, g', hg', he1, he2⟩
      | some w =>
        rw [h2] at he
        simp only [] at he
        rcases List.mem_cons.mp he with heq | hmem'
        · subst heq
          exact ⟨t', List.mem_cons_self _ _, g,
            availability_non_increasing_refl g, rfl, h1⟩
        · obtain ⟨u, hu, g', hg', he1, he2⟩ := ih k.succ _ e hmem'
          exact ⟨u, List.mem_cons_of_mem _ hu, g',
            availability_non_increasing_trans
              (mark_slots_unavailable_mono g _ _) hg', he1, he2⟩

theorem required_slots_count_pos (t : Task) (hdur : 0 < t.duration_minutes) :
    1 ≤ required_slots_count t 15 := by
  rw [required_slots_count, neg_fdiv_neg_eq_ceil _ _ (by decide),
    Int.le_ediv_iff_mul_le (by decide)]
  omega

/-- Claim C6 (functional correctness): a task whose required slot count
exceeds the length of every contiguous run of available slots in the
input grid (every full-length window contains an unavailable slot — in
particular any task longer than the whole grid) gets an empty candidate
sequence, is recorded in the conflicts list with the no-slot-found
reason, and never appears in the scheduled plan. -/
theorem conflict_completeness (tasks : List Task) (t : Task)
    (g : List TimeSlot) (oracle : Nat → LLMResponse)
    (hmem : t ∈ tasks) (hdur : 0 < t.duration_minutes)
    (hruns : ∀ i, i + (required_slots_count t 15).toNat ≤ g.length →
      ∃ s ∈ (g.drop i).take (required_slots_count t 15).toNat,
        s.available = false)
    (hid : ∀ t' ∈ tasks, t'.id = t.id → t' = t) :
    find_candidate_slots t g = [] ∧
    ({ task := t.description, reason := .noSlot t.duration_minutes } : Conflict) ∈
      (schedule_tasks_intelligently tasks g oracle).conflicts ∧
    (∀ e ∈ (schedule_tasks_intelligently tasks g oracle).scheduled_plan,
      e.task_id ≠ t.id) := by
  have hr1 : 1 ≤ required_slots_count t 15 := required_slots_count_pos t hdur
  have hempty : find_candidate_slots t g = [] := by
    rw [List.eq_nil_iff_forall_not_mem]
    intro w hw
    obtain ⟨i, hi, hval, hall⟩ := find_candidate_slots_mem hw
    rw [List.mem_range] at hi
    obtain ⟨s, hs, hfalse⟩ := hruns i (by omega)
    have := List.all_eq_true.mp (hval ▸ hall) s hs
    simp only [hfalse] at this
    cases this
  have hperm : t ∈ sortedTasks tasks := (sortedTasks_perm tasks).mem_iff.mpr hmem
  refine ⟨hempty, ?_, ?_⟩
  · show _ ∈ (scheduleLoop oracle 0 (sortedTasks tasks) g).2.1
    exact scheduleLoop_conflict_of_empty oracle t (sortedTasks tasks) 0 g
      hperm hempty
  · intro e he hid'
    have he' : e ∈ (scheduleLoop oracle 0 (sortedTasks tasks) g).1 := he
    obtain ⟨t', ht'mem, g', hmono, heq, hne⟩ :=
      scheduleLoop_plan_sources oracle (sortedTasks tasks) 0 g e he'
    have ht'tasks : t' ∈ tasks := (sortedTasks_perm tasks).mem_iff.mp ht'mem
    have : t' = t := hid t' ht'tasks (heq ▸ hid')
    subst this
    exact hne (find_candidate_slots_empty_mono hmono hempty)

/-- A 30-minute task for the C6 witness. -/
def cexT6 : Task :=
  { id := "t6", description := some "T6", duration_minutes := 30, priority_num := 1 }

/-- A 3-slot grid whose middle slot is busy: no free run of length 2. -/
def cexG6 : List TimeSlot :=
  [{ start := 0, endT := 15 }, { start := 15, endT := 30, available := false },
   { start := 30, endT := 45 }]

/-- Witness for C6: the 30-minute task cannot fit any free run of the
3-slot grid, conflicts, and is never scheduled. -/
theorem conflict_completeness_witness :
    find_candidate_slots cexT6 cexG6 = [] ∧
    ({ task := some "T6", reason := .noSlot 30 } : Conflict) ∈
      (schedule_tasks_intelligently [cexT6] cexG6 (fun _ => .invalid)).conflicts ∧
    (∀ e ∈ (schedule_tasks_intelligently [cexT6] cexG6
        (fun _ => .invalid)).scheduled_plan, e.task_id ≠ "t6") := by
  have hruns : ∀ i, i + (required_slots_count cexT6 15).toNat ≤ cexG6.length →
      ∃ s ∈ (cexG6.drop i).take (required_slots_count cexT6 15).toNat,
        s.available = false := by
    intro i h
    rw [show (required_slots_count cexT6 15).toNat = 2 from by decide] at h ⊢
    have h2 : i = 0 ∨ i = 1 := by
      rw [show cexG6.length = 3 from by decide] at h
      omega
    rcases h2 with rfl | rfl
    · exact ⟨{ start := 15, endT := 30, available := false }, by decide, rfl⟩
    · exact ⟨{ start := 15, endT := 30, available := false }, by decide, rfl⟩
  exact conflict_completeness [cexT6] cexT6 cexG6 (fun _ => .invalid)
    (by decide) (by decide) hruns
    (fun t' ht' _ => List.mem_singleton.mp ht')

/-! ### Grid-builder invariants (C9) -/

/-- The times `(start, end)` of a slot list (availability forgotten). -/
def slotTimes (l : List TimeSlot) : List (Int × Int) :=
  l.map fun s => (s.start, s.endT)

theorem slotTimes_mark (l : List TimeSlot) (a b : Int) :
    slotTimes (mark_slots_unavailable l a b) = slotTimes l := by
  unfold slotTimes mark_slots_unavailable
  rw [List.map_map]
  apply List.map_congr_left
  intro x _
  simp only [Function.comp_apply]
  split <;> rfl

theorem slotTimes_apply_preferences (l : List TimeSlot) (p : Preferences) :
    slotTimes (apply_preferences l p) = slotTimes l := by
  cases l with
  | nil => rfl
  | cons s0 rest =>
    rw [apply_preferences_cons, slotTimes_mark]
    unfold slotTimes
    rw [List.map_map]
    apply List.map_congr_left
    intro x _
    simp only [Function.comp_apply, workHoursF]
    split <;> rfl

theorem slotTimes_foldl_mark (d : Int) :
    ∀ (events : List CalendarEvent) (acc : List TimeSlot),
      slotTimes (events.foldl
        (fun acc event =>
          if event.start.ediv 1440 = d then
            mark_slots_unavailable acc event.start event.endT
          else acc) acc) = slotTimes acc := by
  intro events
  induction events with
  | nil => intro acc; rfl
  | cons ev rest ih =>
    intro acc
    rw [List.foldl_cons]
    split
    · rw [ih, slotTimes_mark]
    · rw [ih]

theorem slotTimes_build_availability_matrix (d : Int)
    (events : List CalendarEvent) (p : Preferences) :
    slotTimes (build_availability_matrix d events p) =
      slotTimes (initialize_day_slots d 15) := by
  simp only [build_availability_matrix]
  rw [slotTimes_foldl_mark, slotTimes_apply_preferences]

theorem daySlotLoop_exact :
    ∀ (n fuel : Nat) (c E : Int), n ≤ fuel → c + 15 * n = E →
      daySlotLoop 15 E fuel c =
        (List.range n).map fun i : Nat =>
          { start := c + 15 * (i : Int), endT := c + 15 * (i : Int) + 15,
            available := true } := by
  intro n
  induction n with
  | zero =>
    intro fuel c E _ hE
    have hc : c = E := by omega
    cases fuel with
    | zero => rfl
    | succ f =>
      rw [daySlotLoop, if_neg (by omega)]
      rfl
  | succ n ih =>
    intro fuel c E hfuel hE
    obtain ⟨f, rfl⟩ : ∃ f, fuel = f + 1 := ⟨fuel - 1, by omega⟩
    rw [daySlotLoop, if_pos (by push_cast at hE ⊢; omega)]
    rw [ih f (c + 15) E (by omega) (by push_cast at hE ⊢; omega)]
    rw [List.range_succ_eq_map, List.map_cons, List.map_map]
    congr 1
    · simp
    · apply List.map_congr_left
      intro i _
      simp only [Function.comp_apply, TimeSlot.mk.injEq]
      push_cast
      refine ⟨by ring, by ring, trivial⟩

theorem initialize_day_slots_eq (d : Int) :
    initialize_day_slots d 15 =
      (List.range 96).map fun i : Nat =>
        { start := d * 1440 + 15 * (i : Int),
          endT := d * 1440 + 15 * (i : Int) + 15, available := true } := by
  unfold initialize_day_slots
  rw [daySlotLoop_exact 96 1441 (d * 1440) (d * 1440 + 1440) (by omega) (by norm_num)]

theorem slotTimes_build_eq (d : Int) (events : List CalendarEvent)
    (p : Preferences) :
    slotTimes (build_availability_matrix d events p) =
      (List.range 96).map fun i : Nat =>
        ((d * 1440 + 15 * (i : Int)), (d * 1440 + 15 * (i : Int) + 15)) := by
  rw [slotTimes_build_availability_matrix, initialize_day_slots_eq]
  unfold slotTimes
  rw [List.map_map]
  rfl

/-- Concatenation of `D` blocks of 96 indexed items flattens to a single
indexed range. -/
theorem flatMap_range96 {β : Type} (f : Nat → Nat → β) :
    ∀ D : Nat, (List.range D).flatMap (fun o => (List.range 96).map (f o)) =
      (List.range (D * 96)).map fun i => f (i / 96) (i % 96) := by
  intro D
  induction D with
  | zero => rfl
  | succ D ih =>
    rw [List.range_succ, List.flatMap_append, ih,
      show (D + 1) * 96 = D * 96 + 96 from by ring, List.range_add,
      List.map_append]
    congr 1
    simp only [List.flatMap_cons, List.flatMap_nil, List.append_nil,
      List.map_map]
    apply List.map_congr_left
    intro r hr
    rw [List.mem_range] at hr
    simp only [Function.comp_apply]
    have h1 : (D * 96 + r) / 96 = D := by omega
    have h2 : (D * 96 + r) % 96 = r := by omega
    rw [h1, h2]

set_option maxRecDepth 4000 in
theorem seven_day_slotTimes (T : Int) (events : List CalendarEvent)
    (p : Preferences) :
    slotTimes (seven_day_availability T events p) =
      (List.range 672).map fun i : Nat =>
        ((T * 1440 + 15 * (i : Int)), (T * 1440 + 15 * (i : Int) + 15)) := by
  unfold seven_day_availability slotTimes
  rw [List.map_flatMap]
  have h1 : (fun o : Nat =>
      (build_availability_matrix (T + o) events p).map fun s => (s.start, s.endT)) =
      fun o : Nat => (List.range 96).map fun r : Nat =>
        (((T + (o : Int)) * 1440 + 15 * (r : Int)),
          ((T + (o : Int)) * 1440 + 15 * (r : Int) + 15)) :=
    funext fun o => slotTimes_build_eq (T + o) events p
  rw [h1, flatMap_range96
    (fun o r => (((T + (o : Int)) * 1440 + 15 * (r : Int)),
      ((T + (o : Int)) * 1440 + 15 * (r : Int) + 15))) 7]
  rw [show (7 : Nat) * 96 = 672 from by norm_num]
  apply List.map_congr_left
  intro i hi
  rw [List.mem_range] at hi
  rw [Prod.mk.injEq]
  constructor <;> omega

theorem slotTimes_pointwise {g : List TimeSlot} {N : Nat} {F : Nat → Int × Int}
    (h : slotTimes g = (List.range N).map F) :
    g.length = N ∧
    ∀ i, (hi : i < g.length) → g[i].start = (F i).1 ∧ g[i].endT = (F i).2 := by
  have hlen : g.length = N := by
    have hl := congrArg List.length h
    simpa [slotTimes] using hl
  refine ⟨hlen, ?_⟩
  intro i hi
  have h1 : (slotTimes g)[i]? = some (g[i].start, g[i].endT) := by
    simp [slotTimes, List.getElem?_eq_getElem hi]
  have h2 : ((List.range N).map F)[i]? = some (F i) := by
    have hi' : i < (List.range N).length := by
      rw [List.length_range]; omega
    simp [List.getElem?_eq_getElem hi']
  rw [h, h2] at h1
  have := Option.some_inj.mp h1
  exact ⟨congrArg Prod.fst this.symm, congrArg Prod.snd this.symm⟩

/-- Claim C9 (invariants): every grid produced by the builder — the
single-day initialisation and the day-by-day concatenation over the
7-day horizon — consists of slots that are contiguous (each slot's end is
the next slot's start), non-overlapping, strictly increasing in start
time, exactly one 15-minute granularity long, and never spanning two
calendar days. -/
theorem grid_builder_invariants (today : Int) (events : List CalendarEvent)
    (p : Preferences) :
    (initialize_day_slots today 15 =
      (List.range 96).map fun i : Nat =>
        { start := today * 1440 + 15 * (i : Int),
          endT := today * 1440 + 15 * (i : Int) + 15, available := true }) ∧
    (seven_day_availability today events p).length = 672 ∧
    (∀ i, (hi : i + 1 < (seven_day_availability today events p).length) →
      (seven_day_availability today events p)[i].endT =
        (seven_day_availability today events p)[i + 1].start) ∧
    (∀ i j, (hi : i < (seven_day_availability today events p).length) →
      (hj : j < (seven_day_availability today events p).length) → i < j →
      (seven_day_availability today events p)[i].start <
          (seven_day_availability today events p)[j].start ∧
        (seven_day_availability today events p)[i].endT ≤
          (seven_day_availability today events p)[j].start) ∧
    (∀ i, (hi : i < (seven_day_availability today events p).length) →
      (seven_day_availability today events p)[i].endT =
        (seven_day_availability today events p)[i].start + 15) ∧
    (∀ i, (hi : i < (seven_day_availability today events p).length) →
      ((seven_day_availability today events p)[i].start.ediv 1440) * 1440 ≤
          (seven_day_availability today events p)[i].start ∧
        (seven_day_availability today events p)[i].endT ≤
          ((seven_day_availability today events p)[i].start.ediv 1440) * 1440
            + 1440) := by
  obtain ⟨hlen, hpt⟩ := slotTimes_pointwise (seven_day_slotTimes today events p)
  refine ⟨initialize_day_slots_eq today, hlen, ?_, ?_, ?_, ?_⟩
  · intro i hi
    obtain ⟨hs1, he1⟩ := hpt i (by omega)
    obtain ⟨hs2, he2⟩ := hpt (i + 1) (by omega)
    rw [he1, hs2]
    push_cast
    ring
  · intro i j hi hj hij
    obtain ⟨hs1, he1⟩ := hpt i (by omega)
    obtain ⟨hs2, he2⟩ := hpt j (by omega)
    rw [hs1, hs2, he1]
    constructor <;> [skip; skip] <;> simp only [] <;> omega
  · intro i hi
    obtain ⟨hs1, he1⟩ := hpt i (by omega)
    rw [hs1, he1]
  · intro i hi
    obtain ⟨hs1, he1⟩ := hpt i (by omega)
    rw [hs1, he1]
    simp only []
    rw [show (today * 1440 + 15 * (i : Int)).ediv 1440 =
      (today * 1440 + 15 * (i : Int)) / 1440 from rfl]
    constructor <;> omega

/-- Witness for C9: the concrete 7-day grid for day 0 with no events has
672 slots and is contiguous across the first day boundary. -/
theorem grid_builder_invariants_witness :
    (seven_day_availability 0 [] {}).length = 672 ∧
    ((seven_day_availability 0 [] {}).getD 95 default).endT =
      ((seven_day_availability 0 [] {}).getD 96 default).start := by
  have h := grid_builder_invariants 0 [] {}
  have hlen := h.2.1
  refine ⟨hlen, ?_⟩
  have hc := h.2.2.1 95 (by omega)
  rw [List.getD_eq_getElem?_getD, List.getD_eq_getElem?_getD,
    List.getElem?_eq_getElem (by omega), List.getElem?_eq_getElem (by omega)]
  exact hc

/-! ### No-double-booking lemmas (C1) -/

theorem hull_pos :
    ∀ w : List TimeSlot, w ≠ [] →
      List.Chain' (fun a b => a.endT = b.start) w →
      (∀ s ∈ w, s.start < s.endT) →
      (w.headD default).start < (w.getLastD default).endT := by
  intro w
  induction w with
  | nil => intro h; exact absurd rfl h
  | cons s rest ih =>
    intro _ hchain hpos
    cases rest with
    | nil => exact hpos s (List.mem_singleton.mpr rfl)
    | cons t rest' =>
      rw [List.chain'_cons] at hchain
      have hrec := ih (by simp) hchain.2
        (fun u hu => hpos u (List.mem_cons_of_mem _ hu))
      simp only [List.headD_cons, List.getLastD_cons] at *
      calc s.start < s.endT := hpos s (List.mem_cons_self _ _)
        _ = t.start := hchain.1
        _ < _ := hrec

theorem hull_overlap :
    ∀ w : List TimeSlot, w ≠ [] →
      List.Chain' (fun a b => a.endT = b.start) w →
      ∀ x y : Int, x < y →
        overlaps (w.headD default).start (w.getLastD default).endT x y →
        ∃ s ∈ w, overlaps s.start s.endT x y := by
  intro w
  induction w with
  | nil => intro h; exact absurd rfl h
  | cons s rest ih =>
    intro _ hchain x y hxy hov
    cases rest with
    | nil => exact ⟨s, List.mem_singleton.mpr rfl, hov⟩
    | cons t rest' =>
      rw [List.chain'_cons] at hchain
      simp only [List.headD_cons, List.getLastD_cons] at hov ⊢
      by_cases hx : x < s.endT
      · exact ⟨s, List.mem_cons_self _ _, hov.1, hx⟩
      · have hov' : overlaps ((t :: rest').headD default).start
            ((t :: rest').getLastD default).endT x y := by
          simp only [List.headD_cons, List.getLastD_cons]
          exact ⟨by rw [← hchain.1]; omega, hov.2⟩
        obtain ⟨u, hu, huov⟩ := ih (by simp) hchain.2 x y hxy hov'
        exact ⟨u, List.mem_cons_of_mem _ hu, huov⟩

theorem mark_chain {g : List TimeSlot} (a b : Int)
    (h : List.Chain' (fun u v => u.endT = v.start) g) :
    List.Chain' (fun u v => u.endT = v.start)
      (mark_slots_unavailable g a b) := by
  unfold mark_slots_unavailable
  refine List.chain'_map_of_chain' _ ?_ h
  intro u v huv
  split <;> split <;> simpa using huv

theorem mark_pos {g : List TimeSlot} (a b : Int)
    (h : ∀ s ∈ g, s.start < s.endT) :
    ∀ s' ∈ mark_slots_unavailable g a b, s'.start < s'.endT := by
  intro s' hs'
  unfold mark_slots_unavailable at hs'
  rw [List.mem_map] at hs'
  obtain ⟨s, hs, rfl⟩ := hs'
  split <;> simpa using h s hs

theorem mark_blocks {g : List TimeSlot} (a b : Int) :
    ∀ s' ∈ mark_slots_unavailable g a b,
      overlaps s'.start s'.endT a b → s'.available = false := by
  intro s' hs' hov
  unfold mark_slots_unavailable at hs'
  rw [List.mem_map] at hs'
  obtain ⟨s, hs, rfl⟩ := hs'
  by_cases hc : s.start < b ∧ s.endT > a
  · rw [if_pos hc]
  · rw [if_neg hc] at hov ⊢
    exact absurd ⟨hov.1, hov.2⟩ hc

theorem mark_preserves_blocked {g : List TimeSlot} {q1 q2 : Int} (a b : Int)
    (h : ∀ s ∈ g, overlaps s.start s.endT q1 q2 → s.available = false) :
    ∀ s' ∈ mark_slots_unavailable g a b,
      overlaps s'.start s'.endT q1 q2 → s'.available = false := by
  intro s' hs' hov
  unfold mark_slots_unavailable at hs'
  rw [List.mem_map] at hs'
  obtain ⟨s, hs, rfl⟩ := hs'
  by_cases hc : s.start < b ∧ s.endT > a
  · rw [if_pos hc]
  · rw [if_neg hc] at hov ⊢
    exact h s hs hov

/-- Core invariant of the scheduling loop on a contiguous grid: every
placed entry is a positive interval disjoint from every blocked interval
(all of whose overlapping slots are unavailable), and the placed entries
are pairwise disjoint. -/
theorem scheduleLoop_no_overlap (oracle : Nat → LLMResponse) :
    ∀ (ts : List Task) (k : Nat) (g : List TimeSlot) (B : List (Int × Int)),
      List.Chain' (fun u v => u.endT = v.start) g →
      (∀ s ∈ g, s.start < s.endT) →
      (∀ t ∈ ts, 0 < t.duration_minutes) →
      (∀ q ∈ B, q.1 < q.2 ∧
        ∀ s ∈ g, overlaps s.start s.endT q.1 q.2 → s.available = false) →
      (∀ e ∈ (scheduleLoop oracle k ts g).1,
        e.start_time < e.end_time ∧
        ∀ q ∈ B, ¬ overlaps e.start_time e.end_time q.1 q.2) ∧
      List.Pairwise (fun e1 e2 =>
        ¬ overlaps e1.start_time e1.end_time e2.start_time e2.end_time)
        (scheduleLoop oracle k ts g).1 := by
  intro ts
  induction ts with
  | nil =>
    intro k g B _ _ _ _
    exact ⟨fun e he => absurd he (List.not_mem_nil e), List.Pairwise.nil⟩
  | cons t rest ih =>
    intro k g B hchain hpos hdur hB
    rw [scheduleLoop]
    by_cases h1 : find_candidate_slots t g = []
    · simp only [h1, if_pos]
      exact ih (k + 1) g B hchain hpos
        (fun u hu => hdur u (List.mem_cons_of_mem _ hu)) hB
    · simp only [if_neg (by simpa using h1)]
      cases h2 : llm_choose_best_slot (find_candidate_slots t g) (oracle k) with
      | none =>
        simp only []
        exact ih (k + 1) g B hchain hpos
          (fun u hu => hdur u (List.mem_cons_of_mem _ hu)) hB
      | some w =>
        simp only []
        -- window structure
        obtain ⟨i, hi, hw_eq, hall⟩ :=
          find_candidate_slots_mem (llm_choose_best_slot_mem h2)
        have hr1 : 1 ≤ required_slots_count t 15 :=
          required_slots_count_pos t (hdur t (List.mem_cons_self _ _))
        rw [List.mem_range] at hi
        have hik : i + (required_slots_count t 15).toNat ≤ g.length := by
          omega
        have hwlen : w.length = (required_slots_count t 15).toNat := by
          rw [hw_eq, List.length_take, List.length_drop]
          omega
        have hwne : w ≠ [] := by
          rw [← List.length_pos]
          omega
        have hwchain : List.Chain' (fun u v => u.endT = v.start) w := by
          rw [hw_eq]
          exact (hchain.drop i).take _
        have hwmemg : ∀ s ∈ w, s ∈ g := by
          intro s hs
          rw [hw_eq] at hs
          exact List.mem_of_mem_drop (List.mem_of_mem_take hs)
        have hwall : ∀ s ∈ w, s.available = true :=
          fun s hs => List.all_eq_true.mp hall s hs
        have hwpos : ∀ s ∈ w, s.start < s.endT := fun s hs => hpos s (hwmemg s hs)
        set st := (w.headD default).start with hst
        set en := (w.getLastD default).endT with hen
        have hsten : st < en := hull_pos w hwne hwchain hwpos
        have hBdisj : ∀ q ∈ B, ¬ overlaps st en q.1 q.2 := by
          intro q hq hov
          obtain ⟨s, hs, hsov⟩ :=
            hull_overlap w hwne hwchain q.1 q.2 (hB q hq).1 hov
          have := (hB q hq).2 s (hwmemg s hs) hsov
          rw [hwall s hs] at this
          cases this
        have hchain' := mark_chain st en hchain
        have hpos' := mark_pos st en hpos
        have hB' : ∀ q ∈ ((st, en) :: B), q.1 < q.2 ∧
            ∀ s ∈ mark_slots_unavailable g st en,
              overlaps s.start s.endT q.1 q.2 → s.available = false := by
          intro q hq
          rcases List.mem_cons.mp hq with rfl | hq'
          · exact ⟨hsten, mark_blocks st en⟩
          · exact ⟨(hB q hq').1,
              mark_preserves_blocked st en (hB q hq').2⟩
        obtain ⟨ih1, ih2⟩ := ih (k + 1) (mark_slots_unavailable g st en)
          ((st, en) :: B) hchain' hpos'
          (fun u hu => hdur u (List.mem_cons_of_mem _ hu)) hB'
        constructor
        · intro e he
          rcases List.mem_cons.mp he with rfl | he'
          · exact ⟨hsten, hBdisj⟩
          · obtain ⟨hpe, hqe⟩ := ih1 e he'
            exact ⟨hpe, fun q hq => hqe q (List.mem_cons_of_mem _ hq)⟩
        · rw [List.pairwise_cons]
          refine ⟨?_, ih2⟩
          intro e' he'
          have := (ih1 e' he').2 (st, en) (List.mem_cons_self _ _)
          intro hov
          exact this (overlaps_comm.mp hov)

/-- Three pairwise non-overlapping but non-contiguous, unsorted slots:
[0,15), [150,165), [45,60). -/
def cexG1 : List TimeSlot :=
  [{ start := 0, endT := 15 }, { start := 150, endT := 165 },
   { start := 45, endT := 60 }]

/-- 15-minute high-priority task for the C1 counterexample. -/
def cexT1a : Task :=
  { id := "t1", description := some "T1", duration_minutes := 15,
    priority_num := 1 }

/-- 30-minute low-priority task for the C1 counterexample. -/
def cexT1b : Task :=
  { id := "t2", description := some "T2", duration_minutes := 30,
    priority_num := 3 }

/-- Advisory responses for the C1 counterexample: the first call picks
`slot_c` (the third candidate), later calls are unparseable (deterministic
fallback). -/
def cexOracle1 : Nat → LLMResponse :=
  fun k => if k = 0 then .valid (some ['s', 'l', 'o', 't', '_', 'c'])
    else .invalid

/-- Counterexample to claim C1 as stated: on a grid whose slots are
pairwise non-overlapping (but not sorted/contiguous), a run of the engine
returns two scheduled tasks with overlapping intervals — the first task
is placed in the slot [45,60) and the second in the index-window hulling
[0,165), which contains it.  Pairwise non-overlap of the grid slots alone
does not give the no-double-booking property. -/
theorem pairwise_nonoverlap_grid_counterexample :
    List.Pairwise (fun u v : TimeSlot =>
      ¬ overlaps u.start u.endT v.start v.endT) cexG1 ∧
    ¬ List.Pairwise (fun e1 e2 : ScheduledEntry =>
        ¬ overlaps e1.start_time e1.end_time e2.start_time e2.end_time)
      (schedule_tasks_intelligently [cexT1a, cexT1b] cexG1
        cexOracle1).scheduled_plan := by
  constructor <;> decide

/-- Claim C1, amended (invariants): on a grid whose slots are contiguous
and non-degenerate (each slot's end is the next slot's start and each
start is before its end — as every grid built by this program is; this
implies pairwise non-overlap), and for tasks with positive durations (a
non-positive duration crashes the source before any plan is returned),
every run of the engine yields a `scheduled_plan` whose intervals
`[start_time, end_time)` are pairwise disjoint; and for every non-empty
busy block all of whose overlapping slots were marked unavailable in the
input grid, no scheduled interval overlaps that block. -/
theorem no_double_booking (tasks : List Task) (g : List TimeSlot)
    (oracle : Nat → LLMResponse)
    (hchain : List.Chain' (fun u v => u.endT = v.start) g)
    (hpos : ∀ s ∈ g, s.start < s.endT)
    (hdur : ∀ t ∈ tasks, 0 < t.duration_minutes) :
    List.Pairwise (fun e1 e2 =>
      ¬ overlaps e1.start_time e1.end_time e2.start_time e2.end_time)
      (schedule_tasks_intelligently tasks g oracle).scheduled_plan ∧
    (∀ bs be : Int, bs < be →
      (∀ s ∈ g, overlaps s.start s.endT bs be → s.available = false) →
      ∀ e ∈ (schedule_tasks_intelligently tasks g oracle).scheduled_plan,
        ¬ overlaps e.start_time e.end_time bs be) := by
  have hdur' : ∀ t ∈ sortedTasks tasks, 0 < t.duration_minutes :=
    fun t ht => hdur t ((sortedTasks_perm tasks).mem_iff.mp ht)
  constructor
  · exact (scheduleLoop_no_overlap oracle (sortedTasks tasks) 0 g [] hchain
      hpos hdur' (fun q hq => absurd hq (List.not_mem_nil q))).2
  · intro bs be hlt hblk e he
    have h := (scheduleLoop_no_overlap oracle (sortedTasks tasks) 0 g
      [(bs, be)] hchain hpos hdur'
      (fun q hq => by
        rcases List.mem_cons.mp hq with rfl | hq'
        · exact ⟨hlt, hblk⟩
        · exact absurd hq' (List.not_mem_nil q))).1 e he
    exact h.2 (bs, be) (List.mem_cons_self _ _)

/-- Contiguous 4-slot grid with the slot [15,30) already busy, for the C1
witness. -/
def cexG1w : List TimeSlot :=
  [{ start := 0, endT := 15 }, { start := 15, endT := 30, available := false },
   { start := 30, endT := 45 }, { start := 45, endT := 60 }]

/-- Witness for the amended C1 on a concrete contiguous grid with a
[15,30) busy block. -/
theorem no_double_booking_witness :
    List.Pairwise (fun e1 e2 =>
      ¬ overlaps e1.start_time e1.end_time e2.start_time e2.end_time)
      (schedule_tasks_intelligently [cexT1a, cexT1b] cexG1w
        (fun _ => .invalid)).scheduled_plan ∧
    (∀ e ∈ (schedule_tasks_intelligently [cexT1a, cexT1b] cexG1w
        (fun _ => .invalid)).scheduled_plan,
      ¬ overlaps e.start_time e.end_time 15 30) := by
  have h := no_double_booking [cexT1a, cexT1b] cexG1w (fun _ => .invalid)
    (by simp [cexG1w, List.chain'_cons]) (by decide) (by decide)
  exact ⟨h.1, h.2 15 30 (by decide) (by decide)⟩

/-- Witness for C10 at a concrete slot list and block. -/
theorem availability_monotone_non_increasing_witness :
    availability_non_increasing [{ start := 0, endT := 15 }]
      (mark_slots_unavailable [{ start := 0, endT := 15 }] 0 15) :=
  availability_monotone_non_increasing.1 [{ start := 0, endT := 15 }] 0 15

end Scheduler
